import Mathlib

/-!
Verification of the task-execution pipeline of a video download service:
the callback notifier (app/callback.py), the format policy and download
orchestrator (app/downloader.py), the storage dispatcher (app/storage.py),
and the task lifecycle controller (app/tasks.py together with the cancel
endpoint in app/main.py).  Each Python function relevant to the claims is
shallowly embedded as an executable Lean definition; external effects
(HTTP attempts, the extraction library's progress events, cloud uploads)
are supplied as explicit oracle values.
-/

namespace VideoDL

/-! ## Callback notifier (app/callback.py) -/

/-- Outcome of one HTTP POST attempt inside the callback retry loop:
either a response with a status code, or one of the exception kinds the
Python code catches (timeout, transport error, anything else). -/
inductive AttemptOutcome
  | httpStatus (code : Nat)
  | timeoutErr
  | requestErr
  | otherErr
deriving DecidableEq

/-- `response.status_code >= 200 and response.status_code < 300`; an
exception is never a success. -/
def isSuccessOutcome : AttemptOutcome → Bool
  | .httpStatus code => decide (200 ≤ code) && decide (code < 300)
  | _ => false

/-- Observable behaviour of one call of the callback send loop: the boolean
returned to the caller, how many POST attempts were made, and the sequence
of sleep durations (seconds) performed between attempts, in order. -/
structure SendResult where
  ok : Bool
  attempts : Nat
  waits : List Nat
deriving DecidableEq

/-- Body of `CallbackService.send_callback_sync`'s `for attempt in
range(self.max_retries)` loop.  `o` gives the outcome of each attempt,
`n` is `self.max_retries`, `fuel` counts the remaining iterations and
`attempt` is the current loop index (`fuel + attempt = n` at every call
reached from `sendCallbackSync`).  A successful status returns `True`
immediately with no wait; otherwise, when `attempt < n - 1`, the code
sleeps `30 * (2 ** attempt)` seconds and continues; after the final
attempt the loop ends and the function returns `False`. -/
def syncRun (o : Nat → AttemptOutcome) (n : Nat) : Nat → Nat → SendResult
  | 0, _ => ⟨false, 0, []⟩
  | fuel + 1, attempt =>
    if isSuccessOutcome (o attempt) then ⟨true, 1, []⟩
    else if attempt < n - 1 then
      let rest := syncRun o n fuel (attempt + 1)
      ⟨rest.ok, rest.attempts + 1, 30 * 2 ^ attempt :: rest.waits⟩
    else ⟨false, 1, []⟩

/-- `CallbackService.send_callback_sync` with `self.max_retries = n`,
with the per-attempt HTTP outcomes supplied by the oracle `o`. -/
def sendCallbackSync (n : Nat) (o : Nat → AttemptOutcome) : SendResult :=
  syncRun o n n 0

/-- Body of `CallbackService.send_callback_async`'s retry loop, embedded
separately from (but line for line parallel to) `syncRun`: same success
test, same `attempt < self.max_retries - 1` guard, same
`30 * (2 ** attempt)` backoff (via `asyncio.sleep` instead of
`time.sleep`), same `False` after exhaustion. -/
def asyncRun (o : Nat → AttemptOutcome) (n : Nat) : Nat → Nat → SendResult
  | 0, _ => ⟨false, 0, []⟩
  | fuel + 1, attempt =>
    if isSuccessOutcome (o attempt) then ⟨true, 1, []⟩
    else if attempt < n - 1 then
      let rest := asyncRun o n fuel (attempt + 1)
      ⟨rest.ok, rest.attempts + 1, 30 * 2 ^ attempt :: rest.waits⟩
    else ⟨false, 1, []⟩

/-- `CallbackService.send_callback_async` with `self.max_retries = n`. -/
def sendCallbackAsync (n : Nat) (o : Nat → AttemptOutcome) : SendResult :=
  asyncRun o n n 0

/-- The two settings of app/config.py the callback service reads, with
their declared defaults (`callback_timeout: int = 30`,
`callback_max_retries: int = 3`). -/
structure SettingsModel where
  callbackTimeout : Int := 30
  callbackMaxRetries : Int := 3
deriving DecidableEq

/-- The `Settings()` instance with every field at its declared default. -/
def defaultSettings : SettingsModel := {}

/-- Python's `x or default` for an optional int argument: `None` and `0`
are falsy and select the default, every other int is returned itself. -/
def pyOrInt : Option Int → Int → Int
  | some v, d => if v = 0 then d else v
  | none, d => d

/-- The two fields `CallbackService.__init__` stores. -/
structure CallbackServiceState where
  timeout : Int
  maxRetries : Int
deriving DecidableEq

/-- `CallbackService.__init__`: `self.timeout = timeout or
settings.callback_timeout`; `self.max_retries = max_retries or
settings.callback_max_retries`. -/
def callbackServiceInit (s : SettingsModel) (timeout maxRetries : Option Int) :
    CallbackServiceState :=
  ⟨pyOrInt timeout s.callbackTimeout, pyOrInt maxRetries s.callbackMaxRetries⟩

/-- `send_callback_sync` on a service whose stored `max_retries` is a
Python int: `for attempt in range(m)` performs `max m 0` iterations. -/
def sendCallbackSyncInt (m : Int) (o : Nat → AttemptOutcome) : SendResult :=
  sendCallbackSync m.toNat o

/-- An oracle under which every attempt times out. -/
def allTimeoutOutcomes : Nat → AttemptOutcome := fun _ => .timeoutErr

/-- An oracle under which every attempt returns HTTP 200. -/
def allOkOutcomes : Nat → AttemptOutcome := fun _ => .httpStatus 200

/-! ## Format policy (app/downloader.py, `VideoDownloader._build_format_spec`) -/

/-- Python truthiness of an `Optional[str]`: `None` and `""` are falsy. -/
def pyTruthyStr : Option String → Bool
  | some s => s ≠ ""
  | none => false

/-- `VideoDownloader._build_format_spec(download_type, video_quality,
format_spec)`: an explicit truthy `format_spec` is returned directly;
otherwise the expression is built from `download_type` (with every value
other than `"audio"` and `"video"` falling into the `audio_video` branch)
and `video_quality`. -/
def buildFormatSpec (downloadType videoQuality : String)
    (formatSpec : Option String) : String :=
  if pyTruthyStr formatSpec then formatSpec.getD ""
  else if downloadType = "audio" then "bestaudio/best"
  else if downloadType = "video" then
    if videoQuality = "best" then "bestvideo/best"
    else if videoQuality = "worst" then "worstvideo/worst"
    else "bestvideo[height<=" ++ videoQuality ++ "]/bestvideo/best[height<=" ++
      videoQuality ++ "]/best"
  else
    if videoQuality = "best" then "bestvideo+bestaudio/bestvideo*+bestaudio/best"
    else if videoQuality = "worst" then "worstvideo+worstaudio/worst"
    else "bestvideo[height<=" ++ videoQuality ++ "]+bestaudio/bestvideo+bestaudio/best[height<=" ++
      videoQuality ++ "]/best"

/-! ## Storage dispatcher (app/storage.py) -/

/-- `StorageError(code, message)`. -/
structure StorageErr where
  code : String
  msg : String
deriving DecidableEq

/-- Decidable equality for `Except`, needed to evaluate claims about
fallible operations on concrete inputs. -/
instance {ε α : Type} [DecidableEq ε] [DecidableEq α] : DecidableEq (Except ε α) :=
  fun a b =>
    match a, b with
    | .ok x, .ok y =>
      if h : x = y then isTrue (congrArg Except.ok h)
      else isFalse (fun hh => h (by injection hh))
    | .error x, .error y =>
      if h : x = y then isTrue (congrArg Except.error h)
      else isFalse (fun hh => h (by injection hh))
    | .ok _, .error _ => isFalse (fun hh => by injection hh)
    | .error _, .ok _ => isFalse (fun hh => by injection hh)

/-- Python `s.lstrip("/")`: drop every leading slash. -/
def pyLstripSlash (s : String) : String :=
  String.mk (s.data.dropWhile (· = '/'))

/-- Python `s.rstrip("/")`: drop every trailing slash. -/
def pyRstripSlash (s : String) : String :=
  String.mk ((s.data.reverse.dropWhile (· = '/')).reverse)

/-- Python `s.split("/", 1)`: the part before the first slash, and — when a
slash occurs — the remainder after it. -/
def splitOnceSlash (s : String) : String × Option String :=
  match s.data.dropWhile (· ≠ '/') with
  | [] => (String.mk (s.data.takeWhile (· ≠ '/')), none)
  | _ :: tail => (String.mk (s.data.takeWhile (· ≠ '/')), some (String.mk tail))

/-- Python `s.startswith(pre)`, character-wise. -/
def strStarts (s pre : String) : Bool :=
  pre.data.isPrefixOf s.data

/-- Python `s[n:]`, character-wise. -/
def strDropChars (s : String) (n : Nat) : String :=
  String.mk (s.data.drop n)

/-- `StorageUploader._parse_s3_url`: strip trailing slashes, require the
literal `s3://` scheme, split the rest at the first slash into
`(bucket, prefix)` with an empty prefix when no slash is present; any
other scheme raises `INVALID_S3_URL`. -/
def parseS3Url (storageUrl : String) : Except StorageErr (String × String) :=
  let u := pyRstripSlash storageUrl
  if strStarts u "s3://" then
    let path := strDropChars u 5
    let parts := splitOnceSlash path
    .ok (parts.1, parts.2.getD "")
  else
    .error ⟨"INVALID_S3_URL", "Invalid S3 URL format: " ++ u⟩

/-- The object-key computation shared by `_upload_s3`, `_upload_gcs`,
`_upload_s3_compatible` and `_upload_oss_native`:
`key = f"{prefix}/{name}" if prefix else name` followed by
`key = key.lstrip("/")`. -/
def uploadKey (pfx name : String) : String :=
  pyLstripSlash (if pfx ≠ "" then pfx ++ "/" ++ name else name)

/-- The key `_upload_s3` computes for a destination URL and a local file
name: parse the URL, then build the object key from the parsed prefix. -/
def s3KeyOfUrl (storageUrl fileName : String) : Except StorageErr String :=
  (parseS3Url storageUrl).map (fun bp => uploadKey bp.2 fileName)

/-- Oracle outcome of the backend-specific upload helper
(`_upload_s3` / `_upload_gcs` / `_upload_s3_compatible`): the remote URL
it returns, or the `StorageError` it raises. -/
inductive CloudOutcome
  | ok (url : String)
  | err (code msg : String)
deriving DecidableEq

/-- Observable effect of one `StorageUploader.upload` call: the returned
URL or raised error, the set of local files afterwards, and whether any
network upload was attempted. -/
structure UploadEffect where
  result : Except StorageErr String
  files : List String
  networkUsed : Bool
deriving DecidableEq

/-- `StorageUploader.upload(local_path, storage_type, storage_url,
delete_local)` over an explicit local file set `files` (modelling
`local_path.exists()` as membership) and the oracle `cloud` for the
backend helper call.  The `local` branch returns `f"file://{local_path}"`
before any storage-URL validation and never touches the file; cloud
branches delete the local file only after a truthy remote URL when
`delete_local` was requested. -/
def uploaderUpload (files : List String) (localPath storageType : String)
    (storageUrl : Option String) (deleteLocal : Bool) (cloud : CloudOutcome) :
    UploadEffect :=
  if localPath ∉ files then
    ⟨.error ⟨"FILE_NOT_FOUND", "Local file not found: " ++ localPath⟩, files, false⟩
  else if storageType = "local" then
    ⟨.ok ("file://" ++ localPath), files, false⟩
  else if ¬ pyTruthyStr storageUrl then
    ⟨.error ⟨"MISSING_STORAGE_URL", "storage_url is required for cloud storage"⟩,
      files, false⟩
  else if storageType = "s3" ∨ storageType = "gcs" ∨ storageType = "s3_compatible" then
    match cloud with
    | .ok url =>
      if deleteLocal ∧ url ≠ "" then ⟨.ok url, files.erase localPath, true⟩
      else ⟨.ok url, files, true⟩
    | .err c m => ⟨.error ⟨c, m⟩, files, true⟩
  else
    ⟨.error ⟨"INVALID_STORAGE_TYPE", "Unknown storage type: " ++ storageType⟩,
      files, false⟩

/-! ## Download orchestrator (app/downloader.py, `VideoDownloader.download`) -/

/-- A file in the download directory: its full path and its byte size
(`file_path.stat().st_size`). -/
structure FileEntry where
  path : String
  size : Nat
deriving DecidableEq

/-- `DownloadError(code, message)`. -/
structure DlError where
  code : String
  msg : String
deriving DecidableEq

/-- The fields of `DownloadResult` the claims refer to (the nested
`video_info` metadata is omitted). -/
structure DlResult where
  filePath : String
  fileName : String
  fileSize : Nat
deriving DecidableEq

/-- Python `Path(p).name`: the component after the last slash. -/
def pathName (p : String) : String :=
  String.mk ((p.data.reverse.takeWhile (· ≠ '/')).reverse)

/-- `VideoDownloader._find_downloaded_file`: scan the download directory
for the first file whose name contains the embedded unique identifier. -/
def findDownloadedFile (files : List FileEntry) (uniqueId : String) :
    Option FileEntry :=
  files.find? (fun f => decide (uniqueId.data <:+: f.path.data))

/-- Look up a path reported by the `finished` progress event in the
directory listing (`os.path.exists(downloaded_file)`). -/
def lookupFile (files : List FileEntry) (p : String) : Option FileEntry :=
  files.find? (fun f => decide (f.path = p))

/-- File resolution in `VideoDownloader.download`: prefer the truthy path
reported by the terminal progress event when it exists on disk, otherwise
fall back to the unique-identifier directory scan. -/
def resolveDownloadedFile (reported : Option String) (files : List FileEntry)
    (uniqueId : String) : Option FileEntry :=
  match reported with
  | some p =>
    if p ≠ "" then
      match lookupFile files p with
      | some f => some f
      | none => findDownloadedFile files uniqueId
    else findDownloadedFile files uniqueId
  | none => findDownloadedFile files uniqueId

/-- The tail of `VideoDownloader.download` after the extraction library
returned: resolve the produced file, fail with `FILE_NOT_FOUND` when it
cannot be found, and enforce the size limit — `file_size >
settings.max_file_size` unlinks the file and raises `FILE_TOO_LARGE`
(the Python message interpolates the size in MB; the code is what is
modelled exactly), otherwise the `DownloadResult` keeps the file.
Returns the outcome together with the directory contents afterwards. -/
def finishDownload (reported : Option String) (files : List FileEntry)
    (uniqueId : String) (maxFileSize : Nat) :
    Except DlError DlResult × List FileEntry :=
  match resolveDownloadedFile reported files uniqueId with
  | none => (.error ⟨"FILE_NOT_FOUND", "Downloaded file not found"⟩, files)
  | some f =>
    if f.size > maxFileSize then
      (.error ⟨"FILE_TOO_LARGE", "File size exceeds limit"⟩, files.erase f)
    else
      (.ok ⟨f.path, pathName f.path, f.size⟩, files)

/-! ## Progress hook (app/downloader.py, `progress_hook` inside `download`) -/

/-- One event delivered by the extraction library to `progress_hook`:
a `downloading` event carries `downloaded_bytes` (`.get` default 0),
optional `total_bytes`, and `total_bytes_estimate` (`.get` default 0);
a `finished` event carries the produced file name; any other status is
ignored by the hook. -/
inductive ProgressEvent
  | downloading (downloadedBytes : Nat) (totalBytes : Option Nat)
      (totalBytesEstimate : Nat)
  | finished (filename : Option String)
  | otherStatus
deriving DecidableEq

/-- Python `d.get("total_bytes") or d.get("total_bytes_estimate", 0)`:
a missing or zero `total_bytes` falls back to the estimate. -/
def effectiveTotal : Option Nat → Nat → Nat
  | some t, e => if t ≠ 0 then t else e
  | none, e => e

/-- The percent value `progress_hook` passes to the progress callback for
one event, if it calls the callback at all: `(downloaded / total) * 100`
for a `downloading` event with positive total (no clamping of any kind),
the constant `100` for `finished`.  Division is modelled over `ℚ`. -/
def hookPercent : ProgressEvent → Option ℚ
  | .downloading dl tb tbe =>
    let total := effectiveTotal tb tbe
    if 0 < total then some (((dl : ℚ) / (total : ℚ)) * 100) else none
  | .finished _ => some 100
  | .otherStatus => none

/-- The sequence of percent values the caller-supplied progress callback
observes over one event stream within one `download` invocation. -/
def percentsOf (events : List ProgressEvent) : List ℚ :=
  events.filterMap hookPercent

/-! ## Task lifecycle controller (app/tasks.py `download_video_task`,
app/main.py `cancel_task`) -/

/-- `TaskStatus` from app/models.py. -/
inductive TStatus
  | pending | downloading | uploading | completed | failed | cancelled
deriving DecidableEq

/-- The mutable fields of the `Task` record that the claims mention
(timestamps and the video-metadata columns are carried by the same
commits but never constrained by any claim, so they are projected
away). -/
structure TaskRec where
  status : TStatus
  progress : ℚ
  errorCode : Option String
  errorMessage : Option String
  localPath : Option String
  fileName : Option String
  fileSize : Option Nat
  downloadUrl : Option String
deriving DecidableEq

/-- A task as the submission endpoint creates it: `status=PENDING`,
progress 0, every other mutable field unset. -/
def initialTask : TaskRec :=
  ⟨.pending, 0, none, none, none, none, none, none⟩

/-- Outcome of `downloader.download` as observed by the controller: the
percent values its progress callback delivered, and either a result, a
`DownloadError`, or an unclassified exception. -/
inductive DlOutcome
  | ok (events : List ℚ) (res : DlResult)
  | errDl (events : List ℚ) (code msg : String)
  | errOther (events : List ℚ) (msg : String)
deriving DecidableEq

/-- Outcome of `upload_to_storage` as observed by the controller. -/
inductive UpOutcome
  | ok (url : String)
  | errStorage (code msg : String)
deriving DecidableEq

/-- The external-world outcomes one controller invocation can encounter:
the download outcome, the `storage_type` argument, and the upload
outcome.  (The best-effort `get_video_info` probe only writes the
projected-away metadata columns and is swallowed on failure, so it does
not appear.) -/
structure ControllerEnv where
  dl : DlOutcome
  storageType : String
  up : UpOutcome
deriving DecidableEq

/-- The progress percents of a download outcome. -/
def DlOutcome.events : DlOutcome → List ℚ
  | .ok es _ => es
  | .errDl es _ _ => es
  | .errOther es _ => es

/-- One invocation of `download_video_task` on task state `t`, as the list
of `db.commit()` snapshots it writes, in order.  An entry check returns
immediately when the persisted status is `CANCELLED`; otherwise the task
is committed as `DOWNLOADING` (together with the probe metadata written
just before that commit), each progress-callback tick commits an updated
`progress`, and the run ends with the `COMPLETED` commit (preceded by an
`UPLOADING` commit for a truthy non-`"local"` storage type, with a failed
upload downgraded to a `file://` result URL plus an error-message
annotation) or with a `FAILED` commit carrying the classified or
`UNKNOWN_ERROR` code. -/
def runController (env : ControllerEnv) (t : TaskRec) : List TaskRec :=
  if t.status = .cancelled then []
  else
    let t1 : TaskRec := { t with status := .downloading }
    let pCommits := env.dl.events.map (fun p => { t1 with progress := p })
    let t2 := pCommits.getLastD t1
    match env.dl with
    | .errDl _ code msg =>
      let tf : TaskRec :=
        { t2 with
          status := .failed
          errorCode := some code
          errorMessage := some msg }
      (t1 :: pCommits) ++ [tf]
    | .errOther _ msg =>
      let tf : TaskRec :=
        { t2 with
          status := .failed
          errorCode := some "UNKNOWN_ERROR"
          errorMessage := some msg }
      (t1 :: pCommits) ++ [tf]
    | .ok _ res =>
      let t3 : TaskRec :=
        { t2 with
          localPath := some res.filePath
          fileName := some res.fileName
          fileSize := some res.fileSize }
      if env.storageType ≠ "" ∧ env.storageType ≠ "local" then
        let t4 : TaskRec := { t3 with status := .uploading }
        let t5 : TaskRec :=
          match env.up with
          | .ok url => { t4 with downloadUrl := some url }
          | .errStorage _ msg =>
            { t4 with
              downloadUrl := some ("file://" ++ res.filePath)
              errorMessage := some ("Storage upload failed: " ++ msg) }
        (t1 :: pCommits) ++ [t4, { t5 with status := .completed, progress := 100 }]
      else
        let tc : TaskRec :=
          { t3 with
            downloadUrl := some ("file://" ++ res.filePath)
            status := .completed
            progress := 100 }
        (t1 :: pCommits) ++ [tc]

/-- One invocation of the cancel endpoint on task state `t`, as its list
of commits: statuses `COMPLETED` and `FAILED` are rejected with HTTP 400
before any write; every other status (including `CANCELLED` itself) is
committed as `CANCELLED` with no other field touched. -/
def cancelStep (t : TaskRec) : List TaskRec :=
  if t.status = .completed ∨ t.status = .failed then []
  else [{ t with status := .cancelled }]

/-- A step applied to the task record: a controller invocation with its
environment, or a cancel-endpoint call. -/
inductive Step
  | run (env : ControllerEnv)
  | cancel

/-- The commits one step writes. -/
def stepCommits : Step → TaskRec → List TaskRec
  | .run env, t => runController env t
  | .cancel, t => cancelStep t

/-- The task state after a list of commits (unchanged when nothing was
committed). -/
def lastState (t : TaskRec) (commits : List TaskRec) : TaskRec :=
  commits.getLastD t

/-- All commits written by a sequence of steps, in order. -/
def statesTrace : List Step → TaskRec → List TaskRec
  | [], _ => []
  | s :: rest, t =>
    let cs := stepCommits s t
    cs ++ statesTrace rest (lastState t cs)

/-- `COMPLETED`, `FAILED` and `CANCELLED` are terminal. -/
def isTerminalStatus : TStatus → Bool
  | .completed => true
  | .failed => true
  | .cancelled => true
  | _ => false

/-- The forward edges of the claimed state machine out of a non-terminal
status: `PENDING→DOWNLOADING→UPLOADING→COMPLETED` (with `UPLOADING`
skippable for local storage), `FAILED` from `DOWNLOADING`/`UPLOADING`,
`CANCELLED` from any non-terminal status, and a stutter on `DOWNLOADING`
for progress commits. -/
def forwardEdge : TStatus → TStatus → Bool
  | .pending, .downloading => true
  | .pending, .cancelled => true
  | .downloading, .downloading => true
  | .downloading, .uploading => true
  | .downloading, .completed => true
  | .downloading, .failed => true
  | .downloading, .cancelled => true
  | .uploading, .completed => true
  | .uploading, .failed => true
  | .uploading, .cancelled => true
  | _, _ => false

/-- One observed transition between consecutive committed states is
admissible under the claim: from a terminal status neither the status nor
any result/error field may change; from a non-terminal status the status
must follow a forward edge. -/
def stepOkB (s s' : TaskRec) : Bool :=
  if isTerminalStatus s.status then
    decide (s'.status = s.status) && decide (s'.errorCode = s.errorCode) &&
    decide (s'.errorMessage = s.errorMessage) &&
    decide (s'.downloadUrl = s.downloadUrl) &&
    decide (s'.fileName = s.fileName) && decide (s'.fileSize = s.fileSize)
  else forwardEdge s.status s'.status

/-- Every adjacent pair along `t` followed by the commit list is
admissible. -/
def chainOkB : TaskRec → List TaskRec → Bool
  | _, [] => true
  | t, s :: rest => stepOkB t s && chainOkB s rest

/-- Claim C1 as stated: over every sequence of controller and
cancel-endpoint steps applied to a freshly created task, every observed
transition is forward and terminal states are frozen. -/
def claimC1Statement : Prop :=
  ∀ steps : List Step, chainOkB initialTask (statesTrace steps initialTask) = true

/-- The number of controller invocations in a step sequence. -/
def countRuns : List Step → Nat
  | [] => 0
  | .run _ :: rest => countRuns rest + 1
  | .cancel :: rest => countRuns rest

/-- A controller environment for a successful local-storage download with
no progress events, used to exercise repeated controller delivery. -/
def rerunEnv : ControllerEnv :=
  ⟨.ok [] ⟨"/downloads/f.mp4", "f.mp4", 5⟩, "local", .ok ""⟩

/-- Claim C7 as stated: over every event stream one `download` invocation
may receive, the percents passed to the progress callback are
non-decreasing and lie in `[0, 100]`. -/
def claimC7Statement : Prop :=
  ∀ events : List ProgressEvent,
    List.Chain' (· ≤ ·) (percentsOf events) ∧
    ∀ p ∈ percentsOf events, 0 ≤ p ∧ p ≤ 100

/-- Claim C8 as stated: the upload key is the parsed prefix, a slash and
the file name with leading slashes stripped — exactly the file name for
an empty prefix — and the destination `proto://bucket/prefix/` with file
`clip.mp4` yields the key `prefix/clip.mp4`. -/
def claimC8Statement : Prop :=
  (∀ pfx name, uploadKey pfx name =
    pyLstripSlash (if pfx ≠ "" then pfx ++ "/" ++ name else name)) ∧
  (∀ name : String, name.data.head? ≠ some '/' → uploadKey "" name = name) ∧
  s3KeyOfUrl "proto://bucket/prefix/" "clip.mp4" = .ok "prefix/clip.mp4"

/-- Claim C10 as stated: constructor arguments `0` select the configured
defaults (timeout 30, three attempts), the stored retry limit is never
zero, and every invocation of the notifier makes at least one delivery
attempt. -/
def claimC10Statement : Prop :=
  (∀ mr, (callbackServiceInit defaultSettings (some 0) mr).timeout = 30) ∧
  (∀ t, (callbackServiceInit defaultSettings t (some 0)).maxRetries = 3) ∧
  (∀ t mr, (callbackServiceInit defaultSettings t mr).maxRetries ≠ 0) ∧
  (∀ t mr o, 1 ≤ (sendCallbackSyncInt
    (callbackServiceInit defaultSettings t mr).maxRetries o).attempts)

/-! ## Theorems -/

/-- Loop invariant of the `send_callback_sync` retry loop over the window
of attempts `attempt, …, n-1` (`fuel` remaining iterations): at least one
and at most `fuel` attempts are made (when `fuel ≥ 1`), `True` is
returned exactly when the last attempt made succeeded and all earlier
ones failed, `False` exactly when every attempt in the window failed, and
the waits are precisely `30 * 2 ^ i` for every non-final attempt index
`i` actually reached. -/
theorem syncRun_spec (o : Nat → AttemptOutcome) (n : Nat) :
    ∀ fuel a, a + fuel = n →
      (1 ≤ fuel → 1 ≤ (syncRun o n fuel a).attempts) ∧
      (syncRun o n fuel a).attempts ≤ fuel ∧
      ((syncRun o n fuel a).ok = true →
        isSuccessOutcome (o (a + (syncRun o n fuel a).attempts - 1)) = true ∧
        ∀ j, j < (syncRun o n fuel a).attempts - 1 →
          isSuccessOutcome (o (a + j)) = false) ∧
      ((syncRun o n fuel a).ok = false →
        (syncRun o n fuel a).attempts = fuel ∧
        ∀ j, j < fuel → isSuccessOutcome (o (a + j)) = false) ∧
      (syncRun o n fuel a).waits =
        (List.range ((syncRun o n fuel a).attempts - 1)).map
          (fun i => 30 * 2 ^ (a + i)) := by
  intro fuel
  induction fuel with
  | zero =>
    intro a _
    simp [syncRun]
  | succ fuel ih =>
    intro a ha
    by_cases hS : isSuccessOutcome (o a) = true
    · have hunfold : syncRun o n (fuel + 1) a = ⟨true, 1, []⟩ := by
        simp [syncRun, hS]
      rw [hunfold]
      dsimp only
      refine ⟨fun _ => le_refl 1, by omega, fun _ => ⟨?_, ?_⟩,
        fun hf => by simp at hf, by simp⟩
      · have he : a + 1 - 1 = a := by omega
        rw [he]
        exact hS
      · intro j hj
        exact absurd hj (by omega)
    · have hS' : isSuccessOutcome (o a) = false := by
        revert hS
        cases isSuccessOutcome (o a) <;> simp
      by_cases hlt : a < n - 1
      · have hfuel : 1 ≤ fuel := by omega
        obtain ⟨ih1, ih2, ih3, ih4, ih5⟩ := ih (a + 1) (by omega)
        have hpos : 1 ≤ (syncRun o n fuel (a + 1)).attempts := ih1 hfuel
        have hunfold : syncRun o n (fuel + 1) a =
            ⟨(syncRun o n fuel (a + 1)).ok,
              (syncRun o n fuel (a + 1)).attempts + 1,
              30 * 2 ^ a :: (syncRun o n fuel (a + 1)).waits⟩ := by
          simp [syncRun, hS', hlt]
        rw [hunfold]
        dsimp only
        refine ⟨fun _ => by omega, by omega, fun hok => ?_, fun hf => ?_, ?_⟩
        · obtain ⟨hsucc, hfail⟩ := ih3 hok
          constructor
          · have he : a + ((syncRun o n fuel (a + 1)).attempts + 1) - 1 =
                a + 1 + (syncRun o n fuel (a + 1)).attempts - 1 := by omega
            rw [he]
            exact hsucc
          · intro j hj
            match j with
            | 0 => simpa using hS'
            | j' + 1 =>
              have he : a + (j' + 1) = a + 1 + j' := by omega
              rw [he]
              exact hfail j' (by omega)
        · obtain ⟨hcnt, hfail⟩ := ih4 hf
          refine ⟨by omega, fun j hj => ?_⟩
          match j with
          | 0 => simpa using hS'
          | j' + 1 =>
            have he : a + (j' + 1) = a + 1 + j' := by omega
            rw [he]
            exact hfail j' (by omega)
        · rw [ih5]
          have hk : (syncRun o n fuel (a + 1)).attempts + 1 - 1 =
              ((syncRun o n fuel (a + 1)).attempts - 1) + 1 := by omega
          rw [hk, List.range_succ_eq_map, List.map_cons, List.map_map,
            Nat.add_zero]
          congr 1
          apply List.map_congr_left
          intro i _
          simp only [Function.comp]
          have he : a + 1 + i = a + i.succ := by omega
          rw [he]
      · have hfz : fuel = 0 := by omega
        subst hfz
        have hunfold : syncRun o n (0 + 1) a = ⟨false, 1, []⟩ := by
          simp [syncRun, hS', hlt]
        rw [hunfold]
        dsimp only
        refine ⟨fun _ => le_refl 1, le_refl 1, fun hok => by simp at hok,
          fun _ => ⟨rfl, fun j hj => ?_⟩, by simp⟩
        match j with
        | 0 => simpa using hS'

/-- Claim C2: `send_callback_sync` makes at most `n` attempts, returns
`True` exactly when the last attempt made succeeded (status in
`[200,300)`) with every earlier attempt failing, returns `False` exactly
when all `n` attempts failed, and its sleeps are precisely
`30 * 2 ^ i` seconds after each non-final failing attempt `i` — in
particular it never waits after a successful or final attempt, and for
the default three all-failing attempts the waits are 30 then 60
seconds. -/
theorem claimC2_retry_backoff (n : Nat) (o : Nat → AttemptOutcome) :
    (sendCallbackSync n o).attempts ≤ n ∧
    ((sendCallbackSync n o).ok = true →
      isSuccessOutcome (o ((sendCallbackSync n o).attempts - 1)) = true ∧
      ∀ j, j < (sendCallbackSync n o).attempts - 1 →
        isSuccessOutcome (o j) = false) ∧
    ((sendCallbackSync n o).ok = false →
      (sendCallbackSync n o).attempts = n ∧
      ∀ j, j < n → isSuccessOutcome (o j) = false) ∧
    (sendCallbackSync n o).waits =
      (List.range ((sendCallbackSync n o).attempts - 1)).map
        (fun i => 30 * 2 ^ i) := by
  obtain ⟨h1, h2, h3, h4, h5⟩ := syncRun_spec o n n 0 (by omega)
  refine ⟨h2, fun hok => ?_, fun hf => ?_, ?_⟩
  · obtain ⟨hs, hfail⟩ := h3 hok
    exact ⟨by simpa using hs, fun j hj => by simpa using hfail j hj⟩
  · obtain ⟨hc, hfail⟩ := h4 hf
    exact ⟨hc, fun j hj => by simpa using hfail j hj⟩
  · simpa using h5

/-- Witness for claim C2 at the default `n = 3`: all-failing outcomes give
three attempts, and the first two attempt indices are failing ones. -/
theorem claimC2_retry_backoff_witness :
    (sendCallbackSync 3 allTimeoutOutcomes).attempts = 3 ∧
    ∀ j, j < 3 → isSuccessOutcome (allTimeoutOutcomes j) = false := by
  have h := (claimC2_retry_backoff 3 allTimeoutOutcomes).2.2.1 (by decide)
  exact ⟨h.1, h.2⟩

/-- The two retry loops compute identically, attempt by attempt. -/
theorem asyncRun_eq_syncRun (o : Nat → AttemptOutcome) (n : Nat) :
    ∀ fuel a, asyncRun o n fuel a = syncRun o n fuel a := by
  intro fuel
  induction fuel with
  | zero => intro a; rfl
  | succ fuel ih =>
    intro a
    simp only [asyncRun, syncRun, ih (a + 1)]

/-- Claim C6: `send_callback_async` and `send_callback_sync` are
equivalent — for the same retry limit and the same per-attempt HTTP
outcomes they return the same boolean and perform the same number of
attempts and the same sequence of inter-attempt waits. -/
theorem claimC6_sync_async_equiv (n : Nat) (o : Nat → AttemptOutcome) :
    sendCallbackAsync n o = sendCallbackSync n o :=
  asyncRun_eq_syncRun o n n 0

/-- Claim C10 as stated is false: a `CallbackService` constructed with
`max_retries = -1` (a truthy int, so not replaced by the default) stores
`-1`, and `send_callback_sync` on it iterates `range(-1)`, making zero
delivery attempts. -/
theorem claimC10_counterexample : ¬ claimC10Statement := by
  intro h
  exact absurd (h.2.2.2 none (some (-1)) allTimeoutOutcomes) (by decide)

/-- Claim C10 amended: constructing with timeout `0` or `max_retries` `0`
silently substitutes the configured defaults (30 seconds, 3 attempts)
because falsy arguments are treated as absent, so `max_retries` can never
be configured to zero through the constructor; and every invocation of a
notifier whose `max_retries` argument was absent **or non-negative**
makes at least one delivery attempt (a negative argument is stored as-is
and yields zero attempts). -/
theorem claimC10_amended :
    (∀ mr, (callbackServiceInit defaultSettings (some 0) mr).timeout = 30) ∧
    (∀ t, (callbackServiceInit defaultSettings t (some 0)).maxRetries = 3) ∧
    (∀ t mr, (callbackServiceInit defaultSettings t mr).maxRetries ≠ 0) ∧
    (∀ t mr (o : Nat → AttemptOutcome), 0 ≤ mr.getD 0 →
      1 ≤ (sendCallbackSyncInt
        (callbackServiceInit defaultSettings t mr).maxRetries o).attempts) := by
  refine ⟨fun mr => rfl, fun t => rfl, fun t mr => ?_, fun t mr o hmr => ?_⟩
  · match mr with
    | none => simp [callbackServiceInit, pyOrInt, defaultSettings]
    | some v =>
      by_cases hv : v = 0 <;>
        simp [callbackServiceInit, pyOrInt, defaultSettings, hv]
  · have hpos : 1 ≤ ((callbackServiceInit defaultSettings t mr).maxRetries).toNat := by
      match mr with
      | none => simp [callbackServiceInit, pyOrInt, defaultSettings]
      | some v =>
        simp only [Option.getD] at hmr
        by_cases hv : v = 0
        · simp [callbackServiceInit, pyOrInt, defaultSettings, hv]
        · simp only [callbackServiceInit, pyOrInt, defaultSettings, hv,
            if_false]
          omega
    obtain ⟨h1, _⟩ := syncRun_spec o
      ((callbackServiceInit defaultSettings t mr).maxRetries).toNat
      ((callbackServiceInit defaultSettings t mr).maxRetries).toNat 0 (by omega)
    exact h1 hpos

/-- Witness for claim C10 (amended): a service built with
`max_retries = 2` makes at least one attempt even when every attempt
fails. -/
theorem claimC10_amended_witness :
    1 ≤ (sendCallbackSyncInt
      (callbackServiceInit defaultSettings none (some 2)).maxRetries
      allTimeoutOutcomes).attempts :=
  claimC10_amended.2.2.2 none (some 2) allTimeoutOutcomes (by decide)

/-- Claim C5: the format policy is a pure function — repeated calls on the
same `(download_type, video_quality, format_spec)` triple yield the
identical expression string — and a non-empty explicit `format_spec` is
returned exactly as supplied, regardless of the other two arguments. -/
theorem claimC5_format_policy :
    (∀ downloadType videoQuality formatSpec,
      buildFormatSpec downloadType videoQuality formatSpec =
        buildFormatSpec downloadType videoQuality formatSpec) ∧
    (∀ downloadType videoQuality s, s ≠ "" →
      buildFormatSpec downloadType videoQuality (some s) = s) := by
  refine ⟨fun _ _ _ => rfl, fun downloadType videoQuality s hs => ?_⟩
  simp [buildFormatSpec, pyTruthyStr, hs]

/-- Witness for claim C5: the explicit override `"137+140"` is returned
unchanged. -/
theorem claimC5_format_policy_witness :
    buildFormatSpec "audio_video" "720" (some "137+140") = "137+140" :=
  claimC5_format_policy.2 "audio_video" "720" "137+140" (by decide)

/-- Claim C9: uploading an existing local file with storage type
`"local"` returns the `file://` reference to it, attempts no network
action, leaves the file set untouched for every value of `delete_local`
and of the storage URL, and the source file still exists afterwards. -/
theorem claimC9_local_upload (files : List String) (path : String)
    (storageUrl : Option String) (deleteLocal : Bool) (cloud : CloudOutcome)
    (hmem : path ∈ files) :
    uploaderUpload files path "local" storageUrl deleteLocal cloud =
      ⟨.ok ("file://" ++ path), files, false⟩ ∧
    path ∈ (uploaderUpload files path "local" storageUrl deleteLocal cloud).files := by
  have hu : uploaderUpload files path "local" storageUrl deleteLocal cloud =
      ⟨.ok ("file://" ++ path), files, false⟩ := by
    simp [uploaderUpload, hmem]
  exact ⟨hu, by rw [hu]; exact hmem⟩

/-- Witness for claim C9 at a concrete file set. -/
theorem claimC9_local_upload_witness :
    uploaderUpload ["/downloads/clip.mp4"] "/downloads/clip.mp4" "local"
      (some "s3://bucket/pre") true (.ok "ignored") =
      ⟨.ok "file:///downloads/clip.mp4", ["/downloads/clip.mp4"], false⟩ :=
  (claimC9_local_upload ["/downloads/clip.mp4"] "/downloads/clip.mp4"
    (some "s3://bucket/pre") true (.ok "ignored") (by decide)).1

/-- Claim C8 as stated is false: the parser accepts only the literal
`s3://` scheme, so the destination `proto://bucket/prefix/` raises
`INVALID_S3_URL` and no key `prefix/clip.mp4` is computed for it. -/
theorem claimC8_counterexample : ¬ claimC8Statement := by
  intro h
  exact absurd h.2.2 (by decide)

/-- Claim C8 amended: for `s3://` destination URLs the computed upload
object key is the parsed prefix, a slash and the file name with leading
slashes stripped; when the parsed prefix is empty the key is exactly the
(slash-free) file name; in particular destination `s3://bucket/prefix/`
with file `clip.mp4` gives key `prefix/clip.mp4`.  (Destinations with any
other scheme — such as the literal `proto://` — raise `INVALID_S3_URL`
instead.) -/
theorem claimC8_amended :
    (∀ pfx name, uploadKey pfx name =
      pyLstripSlash (if pfx ≠ "" then pfx ++ "/" ++ name else name)) ∧
    (∀ name : String, name.data.head? ≠ some '/' → uploadKey "" name = name) ∧
    parseS3Url "s3://bucket/prefix/" = .ok ("bucket", "prefix") ∧
    s3KeyOfUrl "s3://bucket/prefix/" "clip.mp4" = .ok "prefix/clip.mp4" := by
  refine ⟨fun pfx name => rfl, fun name hname => ?_, by decide, by decide⟩
  show pyLstripSlash (if ("" : String) ≠ "" then "" ++ "/" ++ name else name) = name
  rw [if_neg (by simp)]
  match hn : name with
  | ⟨[]⟩ => rfl
  | ⟨c :: cs⟩ =>
    have hc : c ≠ '/' := fun hcontra => hname (by simp [hcontra])
    simp [pyLstripSlash, List.dropWhile_cons, hc]

/-- Witness for claim C8 (amended): an empty parsed prefix yields exactly
the file name. -/
theorem claimC8_amended_witness : uploadKey "" "clip.mp4" = "clip.mp4" :=
  claimC8_amended.2.1 "clip.mp4" (by decide)

/-- Claim C3: once the downloaded file is resolved, a byte size strictly
over the configured maximum makes `download` unlink the file and fail
with `FILE_TOO_LARGE` (the resolved file is no longer on disk); a byte
size at or under the maximum keeps the file on disk and returns it in the
`DownloadResult`. -/
theorem claimC3_size_limit (reported : Option String) (files : List FileEntry)
    (uniqueId : String) (maxFileSize : Nat) (f : FileEntry)
    (hnd : files.Nodup)
    (hres : resolveDownloadedFile reported files uniqueId = some f) :
    (maxFileSize < f.size →
      (finishDownload reported files uniqueId maxFileSize).1 =
        .error ⟨"FILE_TOO_LARGE", "File size exceeds limit"⟩ ∧
      f ∉ (finishDownload reported files uniqueId maxFileSize).2) ∧
    (f.size ≤ maxFileSize →
      (finishDownload reported files uniqueId maxFileSize).1 =
        .ok ⟨f.path, pathName f.path, f.size⟩ ∧
      (finishDownload reported files uniqueId maxFileSize).2 = files) := by
  constructor
  · intro hover
    have hu : finishDownload reported files uniqueId maxFileSize =
        (.error ⟨"FILE_TOO_LARGE", "File size exceeds limit"⟩, files.erase f) := by
      simp [finishDownload, hres, hover]
    rw [hu]
    exact ⟨rfl, fun hmem =>
      absurd ((List.Nodup.mem_erase_iff hnd).1 hmem).1 (by simp)⟩
  · intro hunder
    have hno : ¬ maxFileSize < f.size := by omega
    simp [finishDownload, hres, hno]

/-- Witness for claim C3: a 10-byte file over a 5-byte limit is rejected
with `FILE_TOO_LARGE` and removed from the directory. -/
theorem claimC3_size_limit_witness :
    (finishDownload (some "/dl/a_xyz.mp4") [⟨"/dl/a_xyz.mp4", 10⟩] "xyz" 5).1 =
      .error ⟨"FILE_TOO_LARGE", "File size exceeds limit"⟩ ∧
    (⟨"/dl/a_xyz.mp4", 10⟩ : FileEntry) ∉
      (finishDownload (some "/dl/a_xyz.mp4") [⟨"/dl/a_xyz.mp4", 10⟩] "xyz" 5).2 :=
  (claimC3_size_limit (some "/dl/a_xyz.mp4") [⟨"/dl/a_xyz.mp4", 10⟩] "xyz" 5
    ⟨"/dl/a_xyz.mp4", 10⟩ (by decide) (by decide)).1 (by decide)

/-- Claim C7 as stated is false: the hook computes each percent from the
current event alone, with no clamping and no monotonicity enforcement, so
an event stream whose byte counts regress yields a decreasing percent
sequence (50 then 30). -/
theorem claimC7_counterexample : ¬ claimC7Statement := by
  intro h
  have h2 := (h [.downloading 50 (some 100) 0, .downloading 30 (some 100) 0]).1
  have hp : percentsOf
      [.downloading 50 (some 100) 0, .downloading 30 (some 100) 0] =
      [(50 : ℚ), 30] := by
    norm_num [percentsOf, hookPercent, effectiveTotal, List.filterMap]
  rw [hp] at h2
  have hle := (List.chain'_cons.1 h2).1
  norm_num at hle

/-- The percents the hook emits for a run of `downloading` events that
share one positive `total_bytes`. -/
theorem percentsOf_downloading (total : Nat) (htotal : 0 < total)
    (dls : List Nat) :
    percentsOf (dls.map (fun d => ProgressEvent.downloading d (some total) 0)) =
      dls.map (fun d : Nat => ((d : ℚ) / (total : ℚ)) * 100) := by
  have htne : total ≠ 0 := by omega
  induction dls with
  | nil => rfl
  | cons d dls ih =>
    simp only [List.map_cons, percentsOf, List.filterMap_cons] at *
    simp [hookPercent, effectiveTotal, htne, htotal, ih]

/-- Claim C7 amended: within one `download` invocation, for an event
stream made of `downloading` events that share one positive total, carry
non-decreasing downloaded byte counts each at most that total, and are
optionally followed by a `finished` event, the percents passed to the
progress callback are non-decreasing and lie in `[0, 100]`.  (Streams
with regressing byte counts, growing totals, or counts above the
estimate produce decreasing or above-100 percents.) -/
theorem claimC7_amended (total : Nat) (dls : List Nat) (fin : Bool)
    (fname : Option String) (htotal : 0 < total)
    (hmono : List.Chain' (· ≤ ·) dls) (hbound : ∀ d ∈ dls, d ≤ total) :
    List.Chain' (· ≤ ·) (percentsOf
      (dls.map (fun d => ProgressEvent.downloading d (some total) 0) ++
        (if fin then [ProgressEvent.finished fname] else []))) ∧
    ∀ p ∈ percentsOf
      (dls.map (fun d => ProgressEvent.downloading d (some total) 0) ++
        (if fin then [ProgressEvent.finished fname] else [])),
      0 ≤ p ∧ p ≤ 100 := by
  have htQ : (0 : ℚ) < (total : ℚ) := by exact_mod_cast htotal
  have hsplit : percentsOf
      (dls.map (fun d => ProgressEvent.downloading d (some total) 0) ++
        (if fin then [ProgressEvent.finished fname] else [])) =
      dls.map (fun d : Nat => ((d : ℚ) / (total : ℚ)) * 100) ++
        (if fin then [(100 : ℚ)] else []) := by
    rw [percentsOf, List.filterMap_append]
    rw [show (dls.map (fun d => ProgressEvent.downloading d (some total) 0)).filterMap
        hookPercent = percentsOf (dls.map
          (fun d => ProgressEvent.downloading d (some total) 0)) from rfl]
    rw [percentsOf_downloading total htotal]
    cases fin <;> rfl
  have hple : ∀ d : Nat, d ≤ total → ((d : ℚ) / (total : ℚ)) * 100 ≤ 100 := by
    intro d hd
    calc ((d : ℚ) / (total : ℚ)) * 100 ≤ 1 * 100 := by
          apply mul_le_mul_of_nonneg_right _ (by norm_num)
          exact (div_le_one htQ).2 (by exact_mod_cast hd)
      _ = 100 := by norm_num
  have hpge : ∀ d : Nat, 0 ≤ ((d : ℚ) / (total : ℚ)) * 100 := by
    intro d
    positivity
  have hall : ∀ p ∈ dls.map (fun d : Nat => ((d : ℚ) / (total : ℚ)) * 100),
      0 ≤ p ∧ p ≤ 100 := by
    intro p hp
    simp only [List.mem_map] at hp
    obtain ⟨d, hd, hdp⟩ := hp
    rw [← hdp]
    exact ⟨hpge d, hple d (hbound d hd)⟩
  rw [hsplit]
  constructor
  · rw [List.chain'_append]
    refine ⟨?_, ?_, ?_⟩
    · refine (List.chain'_map
        (fun d : Nat => ((d : ℚ) / (total : ℚ)) * 100)).2
        (List.Chain'.imp ?_ hmono)
      intro a b hab
      dsimp only
      have hab' : (a : ℚ) ≤ (b : ℚ) := by exact_mod_cast hab
      gcongr
    · cases fin <;> simp
    · intro x hx y hy
      cases fin with
      | false => simp at hy
      | true =>
        have hy' : (100 : ℚ) = y := by simpa using hy
        obtain ⟨hne, heq⟩ := List.mem_getLast?_eq_getLast hx
        have hxmem : x ∈ dls.map (fun d : Nat => ((d : ℚ) / (total : ℚ)) * 100) := by
          rw [heq]
          exact List.getLast_mem hne
        rw [← hy']
        exact (hall x hxmem).2
  · intro p hp
    rcases List.mem_append.1 hp with hp | hp
    · exact hall p hp
    · cases fin with
      | false => simp at hp
      | true =>
        have hp' : p = 100 := by simpa using hp
        rw [hp']
        norm_num

/-- Witness for claim C7 (amended): the stream 30 %, 60 %, 100 % of a
100-byte total followed by `finished` is monotone and bounded. -/
theorem claimC7_amended_witness :
    List.Chain' (· ≤ ·) (percentsOf
      (([30, 60, 100] : List Nat).map
        (fun d => ProgressEvent.downloading d (some 100) 0) ++
        (if true then [ProgressEvent.finished (some "f.mp4")] else []))) ∧
    ∀ p ∈ percentsOf
      (([30, 60, 100] : List Nat).map
        (fun d => ProgressEvent.downloading d (some 100) 0) ++
        (if true then [ProgressEvent.finished (some "f.mp4")] else [])),
      0 ≤ p ∧ p ≤ 100 :=
  claimC7_amended 100 [30, 60, 100] true (some "f.mp4") (by decide)
    (by simp [List.chain'_cons]) (by decide)

/-- The last element of a commit trace of the shape
`first :: (progress commits ++ [upload commit, final commit])`. -/
theorem getLast?_cons_append_pair {α : Type} (x a b : α) (l : List α) :
    (x :: (l ++ [a, b])).getLast? = some b := by
  induction l generalizing x with
  | nil => rfl
  | cons y l ih =>
    rw [List.cons_append, List.getLast?_cons_cons]
    exact ih y

/-- Claim C4: when the download succeeds but the storage upload raises a
`StorageError`, the controller still commits the task as `COMPLETED` with
progress 100, the result URL is the `file://` reference to the local
file, the upload error message is recorded as the annotation
`Storage upload failed: …`, and no commit of the invocation ever carries
status `FAILED`. -/
theorem claimC4_upload_degrade (t : TaskRec) (events : List ℚ)
    (res : DlResult) (st code msg : String)
    (hc : t.status ≠ .cancelled) (hst1 : st ≠ "") (hst2 : st ≠ "local") :
    (lastState t (runController ⟨.ok events res, st, .errStorage code msg⟩ t)).status
      = .completed ∧
    (lastState t (runController ⟨.ok events res, st, .errStorage code msg⟩ t)).progress
      = 100 ∧
    (lastState t (runController ⟨.ok events res, st, .errStorage code msg⟩ t)).downloadUrl
      = some ("file://" ++ res.filePath) ∧
    (lastState t (runController ⟨.ok events res, st, .errStorage code msg⟩ t)).errorMessage
      = some ("Storage upload failed: " ++ msg) ∧
    ∀ s ∈ runController ⟨.ok events res, st, .errStorage code msg⟩ t,
      s.status ≠ .failed := by
  simp [runController, DlOutcome.events, hc, hst1, hst2, lastState,
    getLast?_cons_append_pair]
  rintro s (⟨p, hp, rfl⟩ | rfl | rfl) <;> simp

/-- Witness for claim C4: a concrete failed `s3` upload after a
successful download completes the task with the local `file://` result
and the error annotation. -/
theorem claimC4_upload_degrade_witness :
    (lastState initialTask (runController
      ⟨.ok [] ⟨"/downloads/f.mp4", "f.mp4", 5⟩, "s3",
        .errStorage "S3_ERROR_AccessDenied" "boom"⟩ initialTask)).status
      = .completed ∧
    (lastState initialTask (runController
      ⟨.ok [] ⟨"/downloads/f.mp4", "f.mp4", 5⟩, "s3",
        .errStorage "S3_ERROR_AccessDenied" "boom"⟩ initialTask)).downloadUrl
      = some ("file://" ++ "/downloads/f.mp4") ∧
    (lastState initialTask (runController
      ⟨.ok [] ⟨"/downloads/f.mp4", "f.mp4", 5⟩, "s3",
        .errStorage "S3_ERROR_AccessDenied" "boom"⟩ initialTask)).errorMessage
      = some ("Storage upload failed: " ++ "boom") := by
  have h := claimC4_upload_degrade initialTask []
    ⟨"/downloads/f.mp4", "f.mp4", 5⟩ "s3" "S3_ERROR_AccessDenied" "boom"
    (by decide) (by decide) (by decide)
  exact ⟨h.1, h.2.2.1, h.2.2.2.1⟩

/-- Admissibility of a concatenated commit list splits at the junction
state. -/
theorem chainOkB_append (t : TaskRec) (xs ys : List TaskRec) :
    chainOkB t (xs ++ ys) = (chainOkB t xs && chainOkB (lastState t xs) ys) := by
  induction xs generalizing t with
  | nil => simp [chainOkB, lastState]
  | cons x xs ih =>
    simp only [List.cons_append, chainOkB, List.append_eq]
    rw [ih x]
    rw [show lastState t (x :: xs) = lastState x xs from List.getLastD_cons t x xs]
    rw [Bool.and_assoc]

/-- Admissibility of a trace of the shape `first :: (middle ++ tail)`. -/
theorem chainOkB_cons_append (t x : TaskRec) (l tail : List TaskRec) :
    chainOkB t (x :: (l ++ tail)) =
      (stepOkB t x && (chainOkB x l && chainOkB (lastState x l) tail)) := by
  simp only [chainOkB, chainOkB_append]

/-- Every cancel-endpoint invocation writes only admissible commits, from
any task state. -/
theorem cancelStep_chain (t : TaskRec) : chainOkB t (cancelStep t) = true := by
  by_cases hterm : t.status = .completed ∨ t.status = .failed
  · simp [cancelStep, hterm, chainOkB]
  · rw [cancelStep, if_neg hterm]
    cases hs : t.status with
    | pending => simp [chainOkB, stepOkB, isTerminalStatus, hs, forwardEdge]
    | downloading => simp [chainOkB, stepOkB, isTerminalStatus, hs, forwardEdge]
    | uploading => simp [chainOkB, stepOkB, isTerminalStatus, hs, forwardEdge]
    | cancelled => simp [chainOkB, stepOkB, isTerminalStatus, hs]
    | completed => exact absurd (Or.inl hs) hterm
    | failed => exact absurd (Or.inr hs) hterm

/-- From a non-`COMPLETED`/`FAILED` state the cancel endpoint leaves the
task `CANCELLED` with all other fields intact. -/
theorem cancelStep_last_nonterm (t : TaskRec)
    (h : ¬(t.status = .completed ∨ t.status = .failed)) :
    lastState t (cancelStep t) = { t with status := .cancelled } := by
  simp [cancelStep, h, lastState]

/-- The controller's entry check: a `CANCELLED` task is returned without
any commit. -/
theorem runController_cancelled (env : ControllerEnv) (t : TaskRec)
    (h : t.status = .cancelled) : runController env t = [] := by
  simp [runController, h]

/-- A run of commits that all carry status `DOWNLOADING` (the progress
ticks) is admissible after any `DOWNLOADING` state and ends in a
`DOWNLOADING` state. -/
theorem downloading_commits_chain (commits : List TaskRec)
    (hall : ∀ c ∈ commits, c.status = .downloading) :
    ∀ prev : TaskRec, prev.status = .downloading →
      chainOkB prev commits = true ∧
      (lastState prev commits).status = .downloading := by
  induction commits with
  | nil =>
    intro prev hprev
    exact ⟨rfl, by simpa [lastState] using hprev⟩
  | cons c cs ih =>
    intro prev hprev
    have hc : c.status = .downloading := hall c (by simp)
    have hcs : ∀ x ∈ cs, x.status = .downloading := fun x hx => hall x (by simp [hx])
    refine ⟨?_, ?_⟩
    · simp only [chainOkB, Bool.and_eq_true]
      exact ⟨by simp [stepOkB, isTerminalStatus, hprev, hc, forwardEdge],
        (ih hcs c hc).1⟩
    · simp only [lastState, List.getLastD_cons]
      exact (ih hcs c hc).2

/-- The last element of a commit trace of the shape
`first :: (progress commits ++ [final commit])`. -/
theorem getLast?_cons_append_one {α : Type} (x a : α) (l : List α) :
    (x :: (l ++ [a])).getLast? = some a := by
  induction l generalizing x with
  | nil => rfl
  | cons y l ih =>
    rw [List.cons_append, List.getLast?_cons_cons]
    exact ih y

/-- One controller invocation on a `PENDING` task writes only admissible
commits and ends in `COMPLETED` or `FAILED`, for every environment. -/
theorem runController_chain (env : ControllerEnv) (t : TaskRec)
    (h : t.status = .pending) :
    chainOkB t (runController env t) = true ∧
    ((lastState t (runController env t)).status = .completed ∨
      (lastState t (runController env t)).status = .failed) := by
  have hnc : ¬ t.status = .cancelled := by simp [h]
  obtain ⟨dl, st, up⟩ := env
  cases dl with
  | errDl es code msg =>
    have hrun : runController ⟨.errDl es code msg, st, up⟩ t =
        ({ t with status := .downloading } ::
          es.map (fun p => { t with status := .downloading, progress := p })) ++
        [{ (es.map (fun p =>
              { t with status := .downloading, progress := p })).getLastD
            { t with status := .downloading } with
            status := .failed
            errorCode := some code
            errorMessage := some msg }] := by
      simp [runController, DlOutcome.events, hnc]
    rw [hrun]
    have hpc := downloading_commits_chain
      (es.map (fun p => { t with status := .downloading, progress := p }))
      (by
        intro c hc
        obtain ⟨p, _, rfl⟩ := List.mem_map.1 hc
        rfl)
      { t with status := .downloading } rfl
    constructor
    · rw [List.cons_append, chainOkB_cons_append, Bool.and_eq_true,
        Bool.and_eq_true]
      refine ⟨by simp [stepOkB, isTerminalStatus, h, forwardEdge], hpc.1, ?_⟩
      simp only [chainOkB, Bool.and_true]
      simp [stepOkB, isTerminalStatus, hpc.2, forwardEdge]
    · right
      simp [lastState, getLast?_cons_append_one]
  | errOther es msg =>
    have hrun : runController ⟨.errOther es msg, st, up⟩ t =
        ({ t with status := .downloading } ::
          es.map (fun p => { t with status := .downloading, progress := p })) ++
        [{ (es.map (fun p =>
              { t with status := .downloading, progress := p })).getLastD
            { t with status := .downloading } with
            status := .failed
            errorCode := some "UNKNOWN_ERROR"
            errorMessage := some msg }] := by
      simp [runController, DlOutcome.events, hnc]
    rw [hrun]
    have hpc := downloading_commits_chain
      (es.map (fun p => { t with status := .downloading, progress := p }))
      (by
        intro c hc
        obtain ⟨p, _, rfl⟩ := List.mem_map.1 hc
        rfl)
      { t with status := .downloading } rfl
    constructor
    · rw [List.cons_append, chainOkB_cons_append, Bool.and_eq_true,
        Bool.and_eq_true]
      refine ⟨by simp [stepOkB, isTerminalStatus, h, forwardEdge], hpc.1, ?_⟩
      simp only [chainOkB, Bool.and_true]
      simp [stepOkB, isTerminalStatus, hpc.2, forwardEdge]
    · right
      simp [lastState, getLast?_cons_append_one]
  | ok es res =>
    have hpc := downloading_commits_chain
      (es.map (fun p => { t with status := .downloading, progress := p }))
      (by
        intro c hc
        obtain ⟨p, _, rfl⟩ := List.mem_map.1 hc
        rfl)
      { t with status := .downloading } rfl
    by_cases hst : st ≠ "" ∧ st ≠ "local"
    · have hrun : runController ⟨.ok es res, st, up⟩ t =
          ({ t with status := .downloading } ::
            es.map (fun p => { t with status := .downloading, progress := p })) ++
          [{ { (es.map (fun p =>
                  { t with status := .downloading, progress := p })).getLastD
                { t with status := .downloading } with
                localPath := some res.filePath
                fileName := some res.fileName
                fileSize := some res.fileSize } with
              status := .uploading },
            { (match up with
                | .ok url =>
                  { { { (es.map (fun p =>
                        { t with status := .downloading, progress := p })).getLastD
                      { t with status := .downloading } with
                      localPath := some res.filePath
                      fileName := some res.fileName
                      fileSize := some res.fileSize } with
                    status := .uploading } with
                    downloadUrl := some url }
                | .errStorage _ msg =>
                  { { { (es.map (fun p =>
                        { t with status := .downloading, progress := p })).getLastD
                      { t with status := .downloading } with
                      localPath := some res.filePath
                      fileName := some res.fileName
                      fileSize := some res.fileSize } with
                    status := .uploading } with
                    downloadUrl := some ("file://" ++ res.filePath)
                    errorMessage := some ("Storage upload failed: " ++ msg) }) with
              status := .completed
              progress := 100 }] := by
        simp [runController, DlOutcome.events, hnc, hst.1, hst.2]
      rw [hrun]
      constructor
      · rw [List.cons_append, chainOkB_cons_append, Bool.and_eq_true,
          Bool.and_eq_true]
        refine ⟨by simp [stepOkB, isTerminalStatus, h, forwardEdge], hpc.1, ?_⟩
        simp only [chainOkB, Bool.and_true, Bool.and_eq_true]
        refine ⟨by simp [stepOkB, isTerminalStatus, hpc.2, forwardEdge], ?_⟩
        cases up <;>
          simp [stepOkB, isTerminalStatus, forwardEdge]
      · left
        cases up <;>
          simp [lastState, getLast?_cons_append_pair]
    · have hrun : runController ⟨.ok es res, st, up⟩ t =
          ({ t with status := .downloading } ::
            es.map (fun p => { t with status := .downloading, progress := p })) ++
          [{ { (es.map (fun p =>
                  { t with status := .downloading, progress := p })).getLastD
                { t with status := .downloading } with
                localPath := some res.filePath
                fileName := some res.fileName
                fileSize := some res.fileSize } with
              downloadUrl := some ("file://" ++ res.filePath)
              status := .completed
              progress := 100 }] := by
        simp only [runController, DlOutcome.events, if_neg hnc, if_neg hst]
      rw [hrun]
      constructor
      · rw [List.cons_append, chainOkB_cons_append, Bool.and_eq_true,
          Bool.and_eq_true]
        refine ⟨by simp [stepOkB, isTerminalStatus, h, forwardEdge], hpc.1, ?_⟩
        simp only [chainOkB, Bool.and_true]
        simp [stepOkB, isTerminalStatus, hpc.2, forwardEdge]
      · left
        simp [lastState, getLast?_cons_append_one]

/-- A step sequence containing no controller invocation writes only
admissible commits, from any task state. -/
theorem statesTrace_cancels (steps : List Step) :
    ∀ t : TaskRec, countRuns steps = 0 →
      chainOkB t (statesTrace steps t) = true := by
  induction steps with
  | nil => intro t _; rfl
  | cons s rest ih =>
    intro t h
    cases s with
    | run env => simp [countRuns] at h
    | cancel =>
      simp only [statesTrace, stepCommits]
      rw [chainOkB_append, Bool.and_eq_true]
      exact ⟨cancelStep_chain t, ih _ (by simpa [countRuns] using h)⟩

/-- A step sequence with at most one controller invocation, started from
a `PENDING` or `CANCELLED` task, writes only admissible commits. -/
theorem statesTrace_oneRun (steps : List Step) :
    ∀ t : TaskRec, t.status = .pending ∨ t.status = .cancelled →
      countRuns steps ≤ 1 →
      chainOkB t (statesTrace steps t) = true := by
  induction steps with
  | nil => intro t _ _; rfl
  | cons s rest ih =>
    intro t hst hcount
    cases s with
    | cancel =>
      simp only [statesTrace, stepCommits]
      rw [chainOkB_append, Bool.and_eq_true]
      refine ⟨cancelStep_chain t, ?_⟩
      have hterm : ¬(t.status = .completed ∨ t.status = .failed) := by
        rcases hst with hh | hh <;> simp [hh]
      rw [cancelStep_last_nonterm t hterm]
      exact ih _ (Or.inr rfl) (by simpa [countRuns] using hcount)
    | run env =>
      have hrest : countRuns rest = 0 := by
        simp only [countRuns] at hcount
        omega
      simp only [statesTrace, stepCommits]
      rw [chainOkB_append, Bool.and_eq_true]
      rcases hst with hp | hcl
      · exact ⟨(runController_chain env t hp).1, statesTrace_cancels rest _ hrest⟩
      · rw [runController_cancelled env t hcl]
        exact ⟨rfl, statesTrace_cancels rest _ hrest⟩

/-- Claim C1 as stated is false: the controller checks only for
`CANCELLED` at entry, so re-delivering it to a task whose first
invocation already reached the terminal status `COMPLETED` re-enters the
pipeline and commits `DOWNLOADING` again — a transition out of a terminal
state (the same happens for `FAILED`, on which the Celery retry
configuration relies). -/
theorem claimC1_counterexample : ¬ claimC1Statement := by
  intro h
  exact absurd (h [.run rerunEnv, .run rerunEnv]) (by decide)

/-- Claim C1 amended: over every sequence of cancel-endpoint steps and
**at most one** controller invocation applied to a freshly created task,
the status only moves forward along
`PENDING → DOWNLOADING → UPLOADING → COMPLETED`, with `FAILED` reachable
from `DOWNLOADING`/`UPLOADING` and `CANCELLED` from a non-terminal
status; no commit changes a status that is already `COMPLETED`, `FAILED`
or `CANCELLED`, and result/error fields are never mutated after a
terminal status.  (Re-delivery of the controller to a `COMPLETED` or
`FAILED` task restarts the pipeline, which is why the controller step
may occur at most once.) -/
theorem claimC1_amended (steps : List Step) (hcount : countRuns steps ≤ 1) :
    chainOkB initialTask (statesTrace steps initialTask) = true :=
  statesTrace_oneRun steps initialTask (Or.inl rfl) hcount

/-- Witness for claim C1 (amended): a cancel, one successful controller
run on the already-cancelled task (a no-op), and another cancel produce
an admissible trace. -/
theorem claimC1_amended_witness :
    chainOkB initialTask
      (statesTrace [.cancel, .run rerunEnv, .cancel] initialTask) = true :=
  claimC1_amended [.cancel, .run rerunEnv, .cancel] (by decide)

end VideoDL
